import Mathlib

/-
Verification of the gaze-tracking core of `src/eyeball_tracker.py`
(class `EyeballTracker`): the bounded sample history, the exponential
weighted average, the two-stage smoothing step, the tracking loop's
per-tick behaviour, and small interleaving models of the unsynchronized
publish/read pair and of the shutdown path.

Floating-point values are modelled as real numbers.  The history deques
hold reals, oldest element first, matching iteration order of a Python
`collections.deque`.
-/

namespace Eyeball

/-- `self.history_size = 20` (line 27). -/
def history_size : ℕ := 20

/-- `self.smoothing_factor = 0.20` (line 38). -/
def smoothing_factor : ℝ := 0.20

/-- `deque.append` on a deque with `maxlen`: when the deque is full the
oldest element (the head) is discarded before the new element is appended
at the tail. -/
def dequeAppend (maxlen : ℕ) (xs : List ℝ) (x : ℝ) : List ℝ :=
  if maxlen ≤ xs.length then xs.tail ++ [x] else xs ++ [x]

/-- One entry of `np.exp(np.linspace(0, 1, n))` (line 97):
`linspace(0, 1, n)` is the ramp `i / (n - 1)` for `i = 0 .. n-1`. -/
noncomputable def expWeight (n i : ℕ) : ℝ :=
  Real.exp ((i : ℝ) / ((n : ℝ) - 1))

/-- `weights.sum()` (line 98). -/
noncomputable def expWeightSum (n : ℕ) : ℝ :=
  ∑ i ∈ Finset.range n, expWeight n i

/-- `weights = weights / weights.sum()` (line 98): the normalized weight
of buffer position `i` (0 = oldest). -/
noncomputable def normWeight (n i : ℕ) : ℝ :=
  expWeight n i / expWeightSum n

/-- `np.average(xs, weights)` (lines 100-101): the weighted sum divided by
the sum of the weights, over the `n = xs.length` buffer positions. -/
noncomputable def npAverage (xs : List ℝ) : ℝ :=
  (∑ i ∈ Finset.range xs.length, normWeight xs.length i * xs.getD i 0) /
    (∑ i ∈ Finset.range xs.length, normWeight xs.length i)

/-- The mutable core state of `EyeballTracker`: the two history deques
(lines 28-29), the published smoothed direction `dx, dy` (lines 32-33) and
the last weighted-average output `raw_dx, raw_dy` (lines 36-37). -/
structure TrackerState where
  dx_history : List ℝ
  dy_history : List ℝ
  dx : ℝ
  dy : ℝ
  raw_dx : ℝ
  raw_dy : ℝ

/-- The state built by `__init__` (lines 27-38): empty histories, all four
direction fields `0.0`. -/
def initState : TrackerState :=
  { dx_history := [], dy_history := [], dx := 0, dy := 0, raw_dx := 0, raw_dy := 0 }

/-- Lines 104-105: `self.dx += (self.raw_dx - self.dx) * self.smoothing_factor`
and the same for `dy`.  This is the spec's `DirectionSmoother.advance`. -/
def advance (s : TrackerState) : TrackerState :=
  { s with
    dx := s.dx + (s.raw_dx - s.dx) * smoothing_factor
    dy := s.dy + (s.raw_dy - s.dy) * smoothing_factor }

/-- `_smooth_direction(target_dx, target_dy)` (lines 88-105).  `none`
models the detector returning `(None, None)`.  When a sample is present it
is appended to both histories; once at least 5 samples are buffered the
exponentially weighted averages overwrite `raw_dx, raw_dy`; finally the
interpolation step of lines 104-105 always runs. -/
noncomputable def smooth_direction (target : Option (ℝ × ℝ)) (s : TrackerState) :
    TrackerState :=
  advance <|
    match target with
    | none => s
    | some (tdx, tdy) =>
      let s1 : TrackerState :=
        { s with
          dx_history := dequeAppend history_size s.dx_history tdx
          dy_history := dequeAppend history_size s.dy_history tdy }
      if 5 ≤ s1.dx_history.length then
        { s1 with
          raw_dx := npAverage s1.dx_history
          raw_dy := npAverage s1.dy_history }
      else s1

/-- The spec's `SampleHistory.weightedAverage`: the guarded averaging step
of lines 95-101 viewed as a partial function of the buffer — `none` while
fewer than 5 samples are buffered, otherwise the weighted average. -/
noncomputable def weightedAverage (xs : List ℝ) : Option ℝ :=
  if 5 ≤ xs.length then some (npAverage xs) else none

/-- One tick of `_tracking_loop` (lines 109-114): the capture read either
fails (`ret = False`, modelled by `none`) — then nothing at all happens to
the tracker state — or yields a frame, which is flipped and passed to the
detector, whose optional result feeds `_smooth_direction`. -/
noncomputable def tick (Frame : Type) (flip : Frame → Frame)
    (detect : Frame → Option (ℝ × ℝ)) (readResult : Option Frame)
    (s : TrackerState) : TrackerState :=
  match readResult with
  | none => s
  | some frame => smooth_direction (detect (flip frame)) s

/-- The tracking loop run over a finite list of capture-read outcomes,
one per tick, oldest first. -/
noncomputable def runLoop (Frame : Type) (flip : Frame → Frame)
    (detect : Frame → Option (ℝ × ℝ)) (reads : List (Option Frame))
    (s : TrackerState) : TrackerState :=
  reads.foldl (fun st r => tick Frame flip detect r st) s

/-- A sequence of detector outcomes fed directly to `_smooth_direction`,
oldest first (each tick with a successful capture does exactly this). -/
noncomputable def runSmooth (targets : List (Option (ℝ × ℝ))) (s : TrackerState) :
    TrackerState :=
  targets.foldl (fun st t => smooth_direction t st) s

/- Basic facts about the weights and the weighted average. -/

lemma expWeightSum_pos (n : ℕ) (hn : 0 < n) : 0 < expWeightSum n :=
  Finset.sum_pos (fun _ _ => Real.exp_pos _) (Finset.nonempty_range_iff.mpr hn.ne')

lemma normWeight_nonneg (n i : ℕ) (hn : 0 < n) : 0 ≤ normWeight n i :=
  div_nonneg (Real.exp_pos _).le (expWeightSum_pos n hn).le

lemma normWeight_sum (n : ℕ) (hn : 0 < n) :
    ∑ i ∈ Finset.range n, normWeight n i = 1 := by
  simp only [normWeight]
  rw [← Finset.sum_div]
  exact div_self (expWeightSum_pos n hn).ne'

lemma npAverage_eq_sum (xs : List ℝ) (h : xs ≠ []) :
    npAverage xs =
      ∑ i ∈ Finset.range xs.length, normWeight xs.length i * xs.getD i 0 := by
  rw [npAverage, normWeight_sum _ (List.length_pos.mpr h), div_one]

lemma getD_mem_of_lt (xs : List ℝ) (i : ℕ) (hi : i < xs.length) :
    xs.getD i 0 ∈ xs := by
  rw [List.getD_eq_getElem xs 0 hi]
  exact List.getElem_mem hi

lemma npAverage_le (xs : List ℝ) (h : xs ≠ []) (B : ℝ)
    (hB : ∀ x ∈ xs, x ≤ B) : npAverage xs ≤ B := by
  rw [npAverage_eq_sum xs h]
  have hn : 0 < xs.length := List.length_pos.mpr h
  calc ∑ i ∈ Finset.range xs.length, normWeight xs.length i * xs.getD i 0
      ≤ ∑ i ∈ Finset.range xs.length, normWeight xs.length i * B := by
        refine Finset.sum_le_sum fun i hi => ?_
        exact mul_le_mul_of_nonneg_left
          (hB _ (getD_mem_of_lt xs i (Finset.mem_range.mp hi)))
          (normWeight_nonneg _ i hn)
    _ = (∑ i ∈ Finset.range xs.length, normWeight xs.length i) * B := by
        rw [Finset.sum_mul]
    _ = B := by rw [normWeight_sum _ hn, one_mul]

lemma le_npAverage (xs : List ℝ) (h : xs ≠ []) (b : ℝ)
    (hb : ∀ x ∈ xs, b ≤ x) : b ≤ npAverage xs := by
  rw [npAverage_eq_sum xs h]
  have hn : 0 < xs.length := List.length_pos.mpr h
  calc b = (∑ i ∈ Finset.range xs.length, normWeight xs.length i) * b := by
        rw [normWeight_sum _ hn, one_mul]
    _ = ∑ i ∈ Finset.range xs.length, normWeight xs.length i * b := by
        rw [Finset.sum_mul]
    _ ≤ ∑ i ∈ Finset.range xs.length, normWeight xs.length i * xs.getD i 0 := by
        refine Finset.sum_le_sum fun i hi => ?_
        exact mul_le_mul_of_nonneg_left
          (hb _ (getD_mem_of_lt xs i (Finset.mem_range.mp hi)))
          (normWeight_nonneg _ i hn)

/- Claims C4, C5, C7, C8. -/

/-- C4: each `advance` step multiplies the error `rawDx - dx` by exactly
`1 - alpha` and never moves `dx` past `rawDx`; with `alpha = 0.20`,
`dx0 = 0` and constant `rawDx = 1.0` the first three steps yield exactly
`0.2`, `0.36`, `0.488`, in particular within tolerance `1e-9`. -/
theorem c4_geometric_convergence :
    (∀ s : TrackerState,
      s.raw_dx - (advance s).dx = (1 - smoothing_factor) * (s.raw_dx - s.dx)) ∧
    (∀ s : TrackerState, s.dx ≤ s.raw_dx → (advance s).dx ≤ s.raw_dx) ∧
    (∀ s : TrackerState, s.raw_dx ≤ s.dx → s.raw_dx ≤ (advance s).dx) ∧
    (advance { initState with raw_dx := 1 }).dx = 0.2 ∧
    (advance (advance { initState with raw_dx := 1 })).dx = 0.36 ∧
    (advance (advance (advance { initState with raw_dx := 1 }))).dx = 0.488 ∧
    |(advance { initState with raw_dx := 1 }).dx - 0.2| ≤ 1e-9 ∧
    |(advance (advance { initState with raw_dx := 1 })).dx - 0.36| ≤ 1e-9 ∧
    |(advance (advance (advance { initState with raw_dx := 1 }))).dx - 0.488| ≤ 1e-9 := by
  refine ⟨fun s => by simp [advance, smoothing_factor]; ring,
    fun s h => ?_, fun s h => ?_, ?_, ?_, ?_, ?_, ?_, ?_⟩ <;>
    simp [advance, initState, smoothing_factor] <;> norm_num <;> nlinarith

/-- Witness for C4 at the concrete state with `rawDx = 1`, `dx = 0`. -/
theorem c4_geometric_convergence_witness :
    ({ initState with raw_dx := 1 } : TrackerState).dx ≤
      ({ initState with raw_dx := 1 } : TrackerState).raw_dx ∧
    (advance { initState with raw_dx := 1 }).dx ≤
      ({ initState with raw_dx := 1 } : TrackerState).raw_dx := by
  have h : ({ initState with raw_dx := 1 } : TrackerState).dx ≤
      ({ initState with raw_dx := 1 } : TrackerState).raw_dx := by
    simp [initState]
  exact ⟨h, c4_geometric_convergence.2.1 _ h⟩

/-- C5: a state with `rawDx = dx` is a fixed point of the interpolation
step for the `dx` field, and symmetrically for `dy`. -/
theorem c5_fixed_point (s : TrackerState) :
    (s.raw_dx = s.dx → (advance s).dx = s.dx) ∧
    (s.raw_dy = s.dy → (advance s).dy = s.dy) := by
  constructor <;> intro h <;> simp [advance, h]

/-- Witness for C5 at the initial state, where `rawDx = dx = 0`. -/
theorem c5_fixed_point_witness :
    (advance initState).dx = initState.dx ∧ (advance initState).dy = initState.dy :=
  ⟨(c5_fixed_point initState).1 rfl, (c5_fixed_point initState).2 rfl⟩

/-- C7: a tick whose capture read fails (`ret = False`) leaves the whole
tracker state untouched — histories, `rawDx`, `rawDy`, `dx`, `dy` — and
the loop simply continues with the remaining ticks. -/
theorem c7_capture_failure_skips_tick (Frame : Type) (flip : Frame → Frame)
    (detect : Frame → Option (ℝ × ℝ)) (s : TrackerState)
    (rest : List (Option Frame)) :
    tick Frame flip detect none s = s ∧
    runLoop Frame flip detect (none :: rest) s = runLoop Frame flip detect rest s :=
  ⟨rfl, rfl⟩

/-- C8: a tick with a successful capture but no detection leaves the
histories and `rawDx`/`rawDy` unchanged, yet still runs the interpolation
step `dx += (rawDx - dx) * alpha` with `alpha = 0.20`. -/
theorem c8_absent_detection_still_advances (Frame : Type) (flip : Frame → Frame)
    (detect : Frame → Option (ℝ × ℝ)) (f : Frame) (s : TrackerState)
    (h : detect (flip f) = none) :
    tick Frame flip detect (some f) s = advance s ∧
    (advance s).dx_history = s.dx_history ∧
    (advance s).dy_history = s.dy_history ∧
    (advance s).raw_dx = s.raw_dx ∧
    (advance s).raw_dy = s.raw_dy ∧
    (advance s).dx = s.dx + (s.raw_dx - s.dx) * smoothing_factor ∧
    (advance s).dy = s.dy + (s.raw_dy - s.dy) * smoothing_factor ∧
    smoothing_factor = 0.20 := by
  refine ⟨?_, rfl, rfl, rfl, rfl, rfl, rfl, rfl⟩
  simp [tick, h, smooth_direction]

/-- Witness for C8 with a unit frame and a detector that finds nothing. -/
theorem c8_absent_detection_still_advances_witness :
    tick Unit id (fun _ => none) (some ()) initState = advance initState :=
  (c8_absent_detection_still_advances Unit id (fun _ => none) () initState rfl).1

lemma dequeAppend_of_lt (C : ℕ) (xs : List ℝ) (x : ℝ) (h : xs.length < C) :
    dequeAppend C xs x = xs ++ [x] := if_neg (by omega)

lemma smooth_direction_some (a b : ℝ) (s : TrackerState) :
    smooth_direction (some (a, b)) s =
      advance (if 5 ≤ (dequeAppend history_size s.dx_history a).length then
        { s with
          dx_history := dequeAppend history_size s.dx_history a
          dy_history := dequeAppend history_size s.dy_history b
          raw_dx := npAverage (dequeAppend history_size s.dx_history a)
          raw_dy := npAverage (dequeAppend history_size s.dy_history b) }
      else
        { s with
          dx_history := dequeAppend history_size s.dx_history a
          dy_history := dequeAppend history_size s.dy_history b }) := rfl

/-- C3: `weightedAverage` returns nothing while fewer than 5 samples are
buffered (and the smoothing step then keeps the prior `rawDx`, `rawDy`);
with `n ≥ 5` samples it returns the sum of the samples weighted by
`exp(i/(n-1))` normalized by the weight total — weights that are
nonnegative and sum to 1, so the result is a convex combination of the
buffered samples, bounded by any lower and upper bound on them. -/
theorem c3_weighted_average (xs : List ℝ) (s : TrackerState) (p : ℝ × ℝ) :
    (xs.length < 5 → weightedAverage xs = none) ∧
    (s.dx_history.length < 4 →
      (smooth_direction (some p) s).raw_dx = s.raw_dx ∧
      (smooth_direction (some p) s).raw_dy = s.raw_dy) ∧
    (5 ≤ xs.length →
      weightedAverage xs =
        some (∑ i ∈ Finset.range xs.length,
          (Real.exp ((i : ℝ) / ((xs.length : ℝ) - 1)) / expWeightSum xs.length) *
            xs.getD i 0) ∧
      (∑ i ∈ Finset.range xs.length, normWeight xs.length i) = 1 ∧
      (∀ i, 0 ≤ normWeight xs.length i) ∧
      (∀ lo hi : ℝ, (∀ x ∈ xs, lo ≤ x ∧ x ≤ hi) →
        lo ≤ npAverage xs ∧ npAverage xs ≤ hi)) := by
  refine ⟨fun h => ?_, fun h => ?_, fun h => ?_⟩
  · rw [weightedAverage, if_neg (by omega)]
  · obtain ⟨a, b⟩ := p
    have hlt : s.dx_history.length < history_size := by rw [history_size]; omega
    have hlen : ¬ 5 ≤ (dequeAppend history_size s.dx_history a).length := by
      rw [dequeAppend_of_lt _ _ _ hlt]
      simp only [List.length_append, List.length_cons, List.length_nil]
      omega
    rw [smooth_direction_some, if_neg hlen]
    exact ⟨rfl, rfl⟩
  · have hne : xs ≠ [] := by
      intro e
      rw [e] at h
      simp at h
    have hn : 0 < xs.length := by omega
    refine ⟨?_, normWeight_sum _ hn, fun i => normWeight_nonneg _ i hn,
      fun lo hi hb =>
        ⟨le_npAverage xs hne lo fun x hx => (hb x hx).1,
         npAverage_le xs hne hi fun x hx => (hb x hx).2⟩⟩
    rw [weightedAverage, if_pos h, npAverage_eq_sum xs hne]
    rfl

/-- Witness for C3 on a three-sample buffer: the average is withheld. -/
theorem c3_weighted_average_witness :
    weightedAverage [1, 2, 3] = none :=
  (c3_weighted_average [1, 2, 3] initState (0, 0)).1 (by simp)

/-- C9: pushing exactly `[0.1, 0.2, 0.3, 0.4, 0.5]` into the empty tracker
reaches the 5-sample threshold, and the resulting `rawDx` — the weighted
average of those samples — is strictly greater than the unweighted mean
`0.3`, because later samples carry exponentially larger weight. -/
theorem c9_weighting_bias :
    (runSmooth ([0.1, 0.2, 0.3, 0.4, 0.5].map fun v => some (v, v)) initState).raw_dx
      = npAverage [0.1, 0.2, 0.3, 0.4, 0.5] ∧
    0.3 < npAverage [0.1, 0.2, 0.3, 0.4, 0.5] := by
  constructor
  · norm_num [runSmooth, List.foldl, smooth_direction_some, dequeAppend,
      history_size, advance, initState]
  · have hne : ([0.1, 0.2, 0.3, 0.4, 0.5] : List ℝ) ≠ [] := by simp
    have hS : 0 < expWeightSum 5 := expWeightSum_pos 5 (by norm_num)
    rw [npAverage_eq_sum _ hne]
    have hrw : ∀ i : ℕ, ∀ x : ℝ, normWeight 5 i * x = expWeight 5 i * x / expWeightSum 5 := by
      intro i x
      rw [normWeight, div_mul_eq_mul_div]
    simp only [List.length_cons, List.length_nil]
    rw [show (4 + 1 : ℕ) = 5 from rfl]
    rw [Finset.sum_range_succ, Finset.sum_range_succ, Finset.sum_range_succ,
      Finset.sum_range_succ, Finset.sum_range_one]
    norm_num [List.getD_cons_zero, List.getD_cons_succ]
    rw [hrw, hrw, hrw, hrw, hrw, div_add_div_same, div_add_div_same,
      div_add_div_same, div_add_div_same, lt_div_iff₀ hS]
    have hSval : expWeightSum 5 =
        expWeight 5 0 + expWeight 5 1 + expWeight 5 2 + expWeight 5 3 + expWeight 5 4 := by
      rw [expWeightSum, Finset.sum_range_succ, Finset.sum_range_succ,
        Finset.sum_range_succ, Finset.sum_range_succ, Finset.sum_range_one]
    have m1 : expWeight 5 1 < expWeight 5 3 := by
      rw [expWeight, expWeight]
      exact Real.exp_lt_exp.mpr (by norm_num)
    have m2 : expWeight 5 0 < expWeight 5 4 := by
      rw [expWeight, expWeight]
      exact Real.exp_lt_exp.mpr (by norm_num)
    rw [hSval]
    ring_nf
    nlinarith [m1, m2]

/-- The window of the `C` most recent elements of a list (all of it when
it is shorter than `C`): the intended content of a bounded FIFO buffer. -/
def lastN (C : ℕ) (l : List ℝ) : List ℝ := l.drop (l.length - C)

lemma lastN_length_le (C : ℕ) (l : List ℝ) : (lastN C l).length ≤ C := by
  rw [lastN, List.length_drop]
  omega

lemma lastN_of_le (C : ℕ) (l : List ℝ) (h : l.length ≤ C) : lastN C l = l := by
  rw [lastN, Nat.sub_eq_zero_of_le h, List.drop_zero]

lemma dequeAppend_eq_lastN (C : ℕ) (hC : 0 < C) (xs : List ℝ) (x : ℝ)
    (h : xs.length ≤ C) : dequeAppend C xs x = lastN C (xs ++ [x]) := by
  rw [dequeAppend, lastN]
  by_cases hc : C ≤ xs.length
  · have hx : xs.length = C := le_antisymm h hc
    have hx1 : 1 ≤ xs.length := by omega
    have hlen : (xs ++ [x]).length - C = 1 := by
      simp only [List.length_append, List.length_cons, List.length_nil]
      omega
    rw [if_pos hc, hlen, List.drop_append_eq_append_drop,
      Nat.sub_eq_zero_of_le hx1, List.drop_zero, List.drop_one]
  · push_neg at hc
    have hlen : (xs ++ [x]).length - C = 0 := by
      simp only [List.length_append, List.length_cons, List.length_nil]
      omega
    rw [if_neg (by omega), hlen, List.drop_zero]

lemma lastN_append (C : ℕ) (l m : List ℝ) :
    lastN C (lastN C l ++ m) = lastN C (l ++ m) := by
  simp only [lastN, List.length_append, List.length_drop]
  rw [List.drop_append_eq_append_drop, List.drop_append_eq_append_drop,
    List.drop_drop, List.length_drop]
  congr 1
  · congr 1
    omega
  · congr 1
    omega

lemma smooth_direction_none_dx_history (s : TrackerState) :
    (smooth_direction none s).dx_history = s.dx_history := rfl

lemma smooth_direction_none_dy_history (s : TrackerState) :
    (smooth_direction none s).dy_history = s.dy_history := rfl

lemma smooth_direction_some_dx_history (a b : ℝ) (s : TrackerState) :
    (smooth_direction (some (a, b)) s).dx_history =
      dequeAppend history_size s.dx_history a := by
  rw [smooth_direction_some]
  split <;> rfl

lemma smooth_direction_some_dy_history (a b : ℝ) (s : TrackerState) :
    (smooth_direction (some (a, b)) s).dy_history =
      dequeAppend history_size s.dy_history b := by
  rw [smooth_direction_some]
  split <;> rfl

lemma dequeAppend_length_le (C : ℕ) (hC : 0 < C) (xs : List ℝ) (x : ℝ)
    (h : xs.length ≤ C) : (dequeAppend C xs x).length ≤ C := by
  rw [dequeAppend]
  split <;> simp only [List.length_append, List.length_tail, List.length_cons,
    List.length_nil] <;> omega

lemma history_size_pos : 0 < history_size := by
  rw [history_size]
  omega

lemma runSmooth_dx_history (inputs : List (Option (ℝ × ℝ))) (s : TrackerState)
    (h : s.dx_history.length ≤ history_size) :
    (runSmooth inputs s).dx_history =
      lastN history_size (s.dx_history ++ (inputs.filterMap id).map Prod.fst) := by
  induction inputs generalizing s with
  | nil =>
    simp only [runSmooth, List.foldl_nil, List.filterMap_nil, List.map_nil,
      List.append_nil]
    exact (lastN_of_le _ _ h).symm
  | cons t rest ih =>
    cases t with
    | none =>
      have hstep : runSmooth (none :: rest) s = runSmooth rest (smooth_direction none s) := rfl
      rw [hstep, ih _ (by rw [smooth_direction_none_dx_history]; exact h)]
      simp [smooth_direction_none_dx_history]
    | some p =>
      obtain ⟨a, b⟩ := p
      have hstep : runSmooth (some (a, b) :: rest) s
          = runSmooth rest (smooth_direction (some (a, b)) s) := rfl
      have hlen : (smooth_direction (some (a, b)) s).dx_history.length ≤ history_size := by
        rw [smooth_direction_some_dx_history]
        exact dequeAppend_length_le _ history_size_pos _ _ h
      rw [hstep, ih _ hlen, smooth_direction_some_dx_history,
        dequeAppend_eq_lastN _ history_size_pos _ _ h, lastN_append]
      simp

lemma runSmooth_dy_history (inputs : List (Option (ℝ × ℝ))) (s : TrackerState)
    (h : s.dy_history.length ≤ history_size) :
    (runSmooth inputs s).dy_history =
      lastN history_size (s.dy_history ++ (inputs.filterMap id).map Prod.snd) := by
  induction inputs generalizing s with
  | nil =>
    simp only [runSmooth, List.foldl_nil, List.filterMap_nil, List.map_nil,
      List.append_nil]
    exact (lastN_of_le _ _ h).symm
  | cons t rest ih =>
    cases t with
    | none =>
      have hstep : runSmooth (none :: rest) s = runSmooth rest (smooth_direction none s) := rfl
      rw [hstep, ih _ (by rw [smooth_direction_none_dy_history]; exact h)]
      simp [smooth_direction_none_dy_history]
    | some p =>
      obtain ⟨a, b⟩ := p
      have hstep : runSmooth (some (a, b) :: rest) s
          = runSmooth rest (smooth_direction (some (a, b)) s) := rfl
      have hlen : (smooth_direction (some (a, b)) s).dy_history.length ≤ history_size := by
        rw [smooth_direction_some_dy_history]
        exact dequeAppend_length_le _ history_size_pos _ _ h
      rw [hstep, ih _ hlen, smooth_direction_some_dy_history,
        dequeAppend_eq_lastN _ history_size_pos _ _ h, lastN_append]
      simp

/-- C6: starting from the empty history, after any sequence of detector
outcomes each history holds exactly the (at most 20) most recent detected
components, in arrival order — so the length never exceeds the capacity
20, the oldest element is evicted first when a push occurs at capacity,
and absent samples are never appended. -/
theorem c6_history_bounded_fifo (inputs : List (Option (ℝ × ℝ))) :
    (runSmooth inputs initState).dx_history =
      lastN history_size ((inputs.filterMap id).map Prod.fst) ∧
    (runSmooth inputs initState).dy_history =
      lastN history_size ((inputs.filterMap id).map Prod.snd) ∧
    (runSmooth inputs initState).dx_history.length ≤ history_size ∧
    (runSmooth inputs initState).dy_history.length ≤ history_size ∧
    history_size = 20 := by
  have h1 := runSmooth_dx_history inputs initState (by simp [initState, history_size])
  have h2 := runSmooth_dy_history inputs initState (by simp [initState, history_size])
  simp only [initState, List.nil_append] at h1 h2
  exact ⟨h1, h2, h1 ▸ lastN_length_le _ _, h2 ▸ lastN_length_le _ _, rfl⟩

/-- All six components of the tracker state lie in `[-B, B]`. -/
def InBounds (B : ℝ) (s : TrackerState) : Prop :=
  (∀ x ∈ s.dx_history, -B ≤ x ∧ x ≤ B) ∧
  (∀ x ∈ s.dy_history, -B ≤ x ∧ x ≤ B) ∧
  (-B ≤ s.raw_dx ∧ s.raw_dx ≤ B) ∧
  (-B ≤ s.raw_dy ∧ s.raw_dy ≤ B) ∧
  (-B ≤ s.dx ∧ s.dx ≤ B) ∧
  (-B ≤ s.dy ∧ s.dy ≤ B)

lemma advance_bound (B d r : ℝ) (hd1 : -B ≤ d) (hd2 : d ≤ B)
    (hr1 : -B ≤ r) (hr2 : r ≤ B) :
    -B ≤ d + (r - d) * smoothing_factor ∧ d + (r - d) * smoothing_factor ≤ B := by
  rw [smoothing_factor]
  constructor <;> nlinarith

lemma mem_dequeAppend (C : ℕ) (xs : List ℝ) (x y : ℝ)
    (h : y ∈ dequeAppend C xs x) : y ∈ xs ∨ y = x := by
  rw [dequeAppend] at h
  split at h <;> rw [List.mem_append] at h <;> rcases h with h | h
  · exact Or.inl (List.mem_of_mem_tail h)
  · simp only [List.mem_singleton] at h
    exact Or.inr h
  · exact Or.inl h
  · simp only [List.mem_singleton] at h
    exact Or.inr h

lemma dequeAppend_ne_nil (C : ℕ) (xs : List ℝ) (x : ℝ) :
    dequeAppend C xs x ≠ [] := by
  rw [dequeAppend]
  split <;> simp

lemma advance_inBounds (B : ℝ) (s : TrackerState) (h : InBounds B s) :
    InBounds B (advance s) := by
  obtain ⟨h1, h2, h3, h4, h5, h6⟩ := h
  exact ⟨h1, h2, h3, h4,
    advance_bound B s.dx s.raw_dx h5.1 h5.2 h3.1 h3.2,
    advance_bound B s.dy s.raw_dy h6.1 h6.2 h4.1 h4.2⟩

lemma smooth_direction_inBounds (B : ℝ) (t : Option (ℝ × ℝ)) (s : TrackerState)
    (ht : ∀ q ∈ t, (-B ≤ q.1 ∧ q.1 ≤ B) ∧ (-B ≤ q.2 ∧ q.2 ≤ B))
    (h : InBounds B s) : InBounds B (smooth_direction t s) := by
  cases t with
  | none => exact advance_inBounds B s h
  | some p =>
    obtain ⟨a, b⟩ := p
    obtain ⟨⟨ha1, ha2⟩, hb1, hb2⟩ := ht (a, b) rfl
    obtain ⟨h1, h2, h3, h4, h5, h6⟩ := h
    have hx : ∀ x ∈ dequeAppend history_size s.dx_history a, -B ≤ x ∧ x ≤ B := by
      intro x hm
      rcases mem_dequeAppend _ _ _ _ hm with hm | hm
      · exact h1 x hm
      · subst hm
        exact ⟨ha1, ha2⟩
    have hy : ∀ x ∈ dequeAppend history_size s.dy_history b, -B ≤ x ∧ x ≤ B := by
      intro x hm
      rcases mem_dequeAppend _ _ _ _ hm with hm | hm
      · exact h2 x hm
      · subst hm
        exact ⟨hb1, hb2⟩
    rw [smooth_direction_some]
    apply advance_inBounds
    split
    · refine ⟨hx, hy, ⟨?_, ?_⟩, ⟨?_, ?_⟩, h5, h6⟩
      · exact le_npAverage _ (dequeAppend_ne_nil _ _ _) _ fun x hm => (hx x hm).1
      · exact npAverage_le _ (dequeAppend_ne_nil _ _ _) _ fun x hm => (hx x hm).2
      · exact le_npAverage _ (dequeAppend_ne_nil _ _ _) _ fun x hm => (hy x hm).1
      · exact npAverage_le _ (dequeAppend_ne_nil _ _ _) _ fun x hm => (hy x hm).2
    · exact ⟨hx, hy, h3, h4, h5, h6⟩

lemma runSmooth_inBounds (B : ℝ) (inputs : List (Option (ℝ × ℝ))) :
    ∀ s : TrackerState,
      (∀ q ∈ inputs.filterMap id, (-B ≤ q.1 ∧ q.1 ≤ B) ∧ (-B ≤ q.2 ∧ q.2 ≤ B)) →
      InBounds B s → InBounds B (runSmooth inputs s) := by
  induction inputs with
  | nil => exact fun s _ h => h
  | cons t rest ih =>
    intro s hin h
    have hstep : runSmooth (t :: rest) s = runSmooth rest (smooth_direction t s) := rfl
    rw [hstep]
    refine ih _ (fun q hq => hin q ?_) (smooth_direction_inBounds B t s (fun q hq => hin q ?_) h)
    · cases t <;> simp only [List.filterMap_cons, id] at * <;> simp [hq]
    · cases t with
      | none => cases hq
      | some p =>
        simp only [List.filterMap_cons, id]
        cases hq
        simp

/-- C10: from the all-zero initial state, if every detected sample has
both components in `[-B, B]` then after any sequence of smoothing steps
the whole tracker state — both histories, `rawDx`, `rawDy`, `dx` and
`dy` — stays in `[-B, B]`. -/
theorem c10_boundedness (B : ℝ) (hB : 0 ≤ B) (inputs : List (Option (ℝ × ℝ)))
    (hin : ∀ q ∈ inputs.filterMap id, (-B ≤ q.1 ∧ q.1 ≤ B) ∧ (-B ≤ q.2 ∧ q.2 ≤ B)) :
    InBounds B (runSmooth inputs initState) := by
  apply runSmooth_inBounds B inputs initState hin
  refine ⟨?_, ?_, ⟨?_, ?_⟩, ⟨?_, ?_⟩, ⟨?_, ?_⟩, ⟨?_, ?_⟩⟩ <;>
    simp [initState] <;> linarith

/-- Witness for C10 with `B = 1` and one detected sample `(1, 0)`. -/
theorem c10_boundedness_witness :
    (0 : ℝ) ≤ 1 ∧ InBounds 1 (runSmooth [some (1, 0), none] initState) := by
  refine ⟨by norm_num, c10_boundedness 1 (by norm_num) [some (1, 0), none] ?_⟩
  intro q hq
  simp only [List.filterMap_cons, id, List.filterMap_nil, List.mem_cons,
    List.not_mem_nil, or_false] at hq
  subst hq
  norm_num

/-
Interleaving model of the publish/read pair (claim C1).

The tracking thread publishes the smoothed direction with the two separate
assignments of lines 104-105 (`self.dx += ...` then `self.dy += ...`), and
`get_direction` (line 120) reads the pair with two separate attribute
loads (`return self.dx, self.dy`).  None of these four accesses is guarded
by a lock; the interpreter only makes each single load or store atomic and
may switch threads between them.  Each of the four accesses is therefore
one atomic step of the model below; values written are left abstract.
-/

/-- Position of the writer (the tracking thread) inside one smoothing
cycle: either between cycles, or between the `self.dx` store of line 104
and the `self.dy` store of line 105. -/
inductive WriterPc
| idle
| betweenStores

/-- Position of a `get_direction` caller: before the `self.dx` load,
between the two loads of line 120, or returned. -/
inductive ReaderPc
| start
| afterDxLoad
| done

/-- Shared memory plus both threads' local state: the two published
fields, the pair the in-progress cycle is writing, the list of pairs
produced by completed writes (most recent first, including the initial
`(0, 0)` of `__init__`), and the reader's two loaded values. -/
structure PubState where
  dx : ℝ
  dy : ℝ
  pending : ℝ × ℝ
  writes : List (ℝ × ℝ)
  writerPc : WriterPc
  readerPc : ReaderPc
  t1 : ℝ
  t2 : ℝ

/-- Both fields `0.0` as set by `__init__` (lines 32-33), one completed
initial write, both threads at their entry points. -/
def pubInit : PubState :=
  { dx := 0, dy := 0, pending := (0, 0), writes := [(0, 0)],
    writerPc := WriterPc.idle, readerPc := ReaderPc.start, t1 := 0, t2 := 0 }

/-- One atomic interpreter step of the writer-reader system: the writer's
store to `self.dx` (line 104), its store to `self.dy` (line 105, which
completes the cycle's write of the pair), the reader's load of `self.dx`
and its load of `self.dy` (both line 120).  Any interleaving of the two
threads is allowed, since the source takes no lock around these
accesses. -/
inductive PubStep : PubState → PubState → Prop
| storeDx (s : PubState) (p : ℝ × ℝ) (h : s.writerPc = WriterPc.idle) :
    PubStep s { s with dx := p.1, pending := p, writerPc := WriterPc.betweenStores }
| storeDy (s : PubState) (h : s.writerPc = WriterPc.betweenStores) :
    PubStep s { s with dy := s.pending.2, writes := s.pending :: s.writes, writerPc := WriterPc.idle }
| loadDx (s : PubState) (h : s.readerPc = ReaderPc.start) :
    PubStep s { s with t1 := s.dx, readerPc := ReaderPc.afterDxLoad }
| loadDy (s : PubState) (h : s.readerPc = ReaderPc.afterDxLoad) :
    PubStep s { s with t2 := s.dy, readerPc := ReaderPc.done }

/-- C1 fails on the code: there is a reachable execution of the
unsynchronized publish/read pair in which `get_direction` returns a pair
that no single write produced — the dx of one cycle combined with the dy
of another.  Concretely: the reader loads `dx = 0` from the initial write,
a full cycle then writes `(1, -1)`, and the reader loads `dy = -1`,
returning the torn pair `(0, -1)`. -/
theorem c1_torn_pair_reachable :
    ∃ s : PubState, Relation.ReflTransGen PubStep pubInit s ∧
      s.readerPc = ReaderPc.done ∧ (s.t1, s.t2) ∉ s.writes := by
  refine ⟨_, Relation.ReflTransGen.head (PubStep.loadDx pubInit rfl)
    (Relation.ReflTransGen.head (PubStep.storeDx _ (1, -1) rfl)
      (Relation.ReflTransGen.head (PubStep.storeDy _ rfl)
        (Relation.ReflTransGen.single (PubStep.loadDy _ rfl)))), rfl, ?_⟩
  simp only [pubInit, List.mem_cons, List.not_mem_nil, or_false, Prod.mk.injEq]
  norm_num

/-
Interleaving model of the shutdown path (claim C2).

`cleanup` (lines 122-125) runs `self.running = False` and then immediately
`self.cap.release()`: there is no `join` on the tracking thread between
the two.  The loop (lines 107-116) checks `self.running` once per
iteration and then calls `self.cap.read()`.  Each of these is one atomic
step below.
-/

/-- Position of the tracking loop: at the `while self.running` check
(line 108), inside `self.cap.read()` (line 109), in the rest of the tick
(lines 110-116, including the sleep), or exited. -/
inductive LoopPc
| checkRunning
| insideCapRead
| restOfTick
| exited

/-- Position of the `cleanup` caller: before line 123, after
`self.running = False` (line 123) but before the release, or after
`self.cap.release()` (line 124). -/
inductive CleanupPc
| beforeStop
| stopped
| released

/-- The stop flag, how many times the capture was released, and both
threads' positions. -/
structure ShutdownState where
  running : Bool
  releaseCount : ℕ
  loopPc : LoopPc
  cleanupPc : CleanupPc

/-- The system as started by `__init__`: flag set, capture not released,
loop at its check, `cleanup` not yet called. -/
def shutdownInit : ShutdownState :=
  { running := true, releaseCount := 0, loopPc := LoopPc.checkRunning,
    cleanupPc := CleanupPc.beforeStop }

/-- Atomic steps of the loop thread and the `cleanup` caller.  The loop
re-reads the flag each iteration and exits when it is false; `cleanup`
clears the flag and then releases the capture, with no intervening join,
so its two steps can interleave anywhere relative to the loop. -/
inductive ShutdownStep : ShutdownState → ShutdownState → Prop
| loopSeesTrue (s : ShutdownState) (h1 : s.loopPc = LoopPc.checkRunning)
    (h2 : s.running = true) :
    ShutdownStep s { s with loopPc := LoopPc.insideCapRead }
| loopSeesFalse (s : ShutdownState) (h1 : s.loopPc = LoopPc.checkRunning)
    (h2 : s.running = false) :
    ShutdownStep s { s with loopPc := LoopPc.exited }
| loopReadReturns (s : ShutdownState) (h : s.loopPc = LoopPc.insideCapRead) :
    ShutdownStep s { s with loopPc := LoopPc.restOfTick }
| loopTickEnds (s : ShutdownState) (h : s.loopPc = LoopPc.restOfTick) :
    ShutdownStep s { s with loopPc := LoopPc.checkRunning }
| cleanupStop (s : ShutdownState) (h : s.cleanupPc = CleanupPc.beforeStop) :
    ShutdownStep s { s with running := false, cleanupPc := CleanupPc.stopped }
| cleanupRelease (s : ShutdownState) (h : s.cleanupPc = CleanupPc.stopped) :
    ShutdownStep s { s with releaseCount := s.releaseCount + 1, cleanupPc := CleanupPc.released }

/-- C2 fails on the code: because `cleanup` never joins the tracking
thread, there is a reachable execution in which the capture has already
been released while the loop is still inside `self.cap.read()` — the
release is not ordered after confirmed loop termination.  Concretely: the
loop reads the flag as true and enters the capture read; `cleanup` then
clears the flag and releases the capture. -/
theorem c2_release_before_loop_exit :
    ∃ s : ShutdownState, Relation.ReflTransGen ShutdownStep shutdownInit s ∧
      s.releaseCount = 1 ∧ s.loopPc = LoopPc.insideCapRead := by
  exact ⟨_, Relation.ReflTransGen.head (ShutdownStep.loopSeesTrue shutdownInit rfl rfl)
    (Relation.ReflTransGen.head (ShutdownStep.cleanupStop _ rfl)
      (Relation.ReflTransGen.single (ShutdownStep.cleanupRelease _ rfl))), rfl, rfl⟩

end Eyeball
